import Mathlib

/-
  Verification of flyscript/ObjectPooler (src/Pool.h).

  Shallow embedding of the template class Pool<type>.  The C++ object is a
  heap-allocated array of `type*` pointers (`m_pArrayLocation`) of length
  `m_iSize`, together with the boundary index `m_iNextFreePosition`.

  Modelling choices:
  - pointers (object identities) are modelled as natural-number addresses;
  - the values stored behind the pointers live in an explicit heap
    `heap : Nat -> A`;  allocation (`new type()`) hands out the address
    `nextAlloc` and bumps the counter, so fresh objects are guaranteed to be
    distinct (by identity) from every address already handed out;
  - the C++ ints `m_iSize` and `m_iNextFreePosition` are modelled as `Int`,
    since the source compares them with produced negative sentinels (-1) and
    the constructors/resize accept arbitrary `int` arguments;
  - `delete` of an object is not modelled (the heap keeps the old value at a
    freed address); freed addresses are never reused because `nextAlloc` only
    grows, so this cannot be observed through the API;
  - out-of-bounds array reads (undefined behaviour in C++) are modelled by
    `List.getD _ 0`; every theorem below only relies on in-bounds reads.
-/

namespace ObjectPooler

/-- State of a constructed `Pool<type>`: `size` is `m_iSize`, `cursor` is
`m_iNextFreePosition`, `storage` is the pointer array `m_pArrayLocation`
(a list of addresses), `heap` gives the value stored at each address, and
`nextAlloc` is the next fresh address the allocator will hand out. -/
@[ext]
structure PoolSt (A : Type) where
  size : Int
  cursor : Int
  storage : List Nat
  heap : Nat → A
  nextAlloc : Nat

/-- Result of running one of the fallible constructors `Pool(const int)` or
`Pool(type*, const int)`: either a constructed pool, or the `a_iSize <= 0`
branch, in which the source executes `delete this` (the `throw` is commented
out) and returns control to the caller with no pool object left alive. -/
inductive CtorResult (A : Type) where
  | ok (p : PoolSt A)
  | deletedThis

/-- The default constructor `Pool()`: ten objects, each default-constructed
(`new type()`), value `d`; `m_iNextFreePosition` starts at 0. -/
def poolCtorDefault (d : A) : PoolSt A :=
  { size := 10
    cursor := 0
    storage := List.range 10
    heap := fun _ => d
    nextAlloc := 10 }

/-- The constructor `Pool(const int a_iSize)`: when `a_iSize > 0` it builds
`a_iSize` default-constructed objects (value `d`); otherwise it executes
`delete this` (its `throw` is commented out). -/
def poolCtorSize (d : A) (a_iSize : Int) : CtorResult A :=
  if a_iSize > 0 then
    .ok { size := a_iSize
          cursor := 0
          storage := List.range a_iSize.toNat
          heap := fun _ => d
          nextAlloc := a_iSize.toNat }
  else
    .deletedThis

/-- The constructor `Pool(type* a_pObjectToPool, const int a_iSize)`: when
`a_iSize > 0` it builds `a_iSize` fresh objects, each assigned the value `t`
of the template object (`*l_pClone = *a_pObjectToPool`); otherwise it
executes `delete this` (its `throw` is commented out). -/
def poolCtorClone (t : A) (a_iSize : Int) : CtorResult A :=
  if a_iSize > 0 then
    .ok { size := a_iSize
          cursor := 0
          storage := List.range a_iSize.toNat
          heap := fun _ => t
          nextAlloc := a_iSize.toNat }
  else
    .deletedThis

/-- Member `getNext()`: when `m_iNextFreePosition < m_iSize`, return the
address at the cursor and increment the cursor; otherwise return `nullptr`
(`none`) and change nothing. -/
def getNext (p : PoolSt A) : Option Nat × PoolSt A :=
  if p.cursor < p.size then
    (some (p.storage.getD p.cursor.toNat 0), { p with cursor := p.cursor + 1 })
  else
    (none, p)

/-- The search loop at the top of `release`: scan the pointer array from the
front and record the first index holding `a_pAddress`, `-1` when absent.
`i` is the index of the head of `l` in the full array. -/
def findPosAux (l : List Nat) (a : Nat) (i : Int) : Int :=
  match l with
  | [] => -1
  | x :: xs => if x == a then i else findPosAux xs a (i + 1)

/-- Position of address `a` in the pointer array, `-1` when absent
(`i_addressPositionInArray` after the loop in `release`). -/
def findPos (l : List Nat) (a : Nat) : Int :=
  findPosAux l a 0

/-- Member `release(type* a_pAddress)`: find the address in the pointer
array; if found at a position below the cursor, swap the pointer at
`lastActive = m_iNextFreePosition - 1` with the found one and decrement the
cursor; otherwise do nothing (the `throw` calls are commented out). -/
def release (p : PoolSt A) (a : Nat) : PoolSt A :=
  let pos := findPos p.storage a
  if pos > -1 ∧ pos < p.cursor then
    let lastActive := p.cursor - 1
    let lastActiveAddress := p.storage.getD lastActive.toNat 0
    { p with
        storage := (p.storage.set lastActive.toNat a).set pos.toNat lastActiveAddress
        cursor := p.cursor - 1 }
  else
    p

/-- Getter `int size() const`. -/
def sizeGet (p : PoolSt A) : Int :=
  p.size

/-- Setter `bool size(int a_iNewSize)` (resize).  When `a_iNewSize > 0`:
copy the first `min a_iNewSize m_iSize` pointers into the new array, fill
indices `[m_iSize, a_iNewSize)` with fresh objects whose value is cloned
from `*m_pArrayLocation[m_iSize-1]`, delete the hanging objects (not
modelled: their addresses simply leave `storage`), clamp the cursor to
`a_iNewSize` when it exceeds it, and set the size; returns `true`.
When `a_iNewSize <= 0` it returns `false` and changes nothing. -/
def sizeSet (p : PoolSt A) (a_iNewSize : Int) : Bool × PoolSt A :=
  if a_iNewSize > 0 then
    let copied := p.storage.take (min a_iNewSize.toNat p.size.toNat)
    let cloneCount := (a_iNewSize - p.size).toNat
    let cloneVal := p.heap (p.storage.getD (p.size - 1).toNat 0)
    let newAddrs := (List.range cloneCount).map (fun j => p.nextAlloc + j)
    (true,
      { size := a_iNewSize
        cursor := if p.cursor > a_iNewSize then a_iNewSize else p.cursor
        storage := copied ++ newAddrs
        heap := fun a =>
          if p.nextAlloc ≤ a ∧ a < p.nextAlloc + cloneCount then cloneVal
          else p.heap a
        nextAlloc := p.nextAlloc + cloneCount })
  else
    (false, p)

/-- Member `int activeCount()`: returns `m_iNextFreePosition`. -/
def activeCount (p : PoolSt A) : Int :=
  p.cursor

/-- Member `int freeCount()`: returns `m_iSize - m_iNextFreePosition`. -/
def freeCount (p : PoolSt A) : Int :=
  p.size - p.cursor

/-- Member `type** activeAddresses(int* a_end)`.  The argument models the
out-pointer: `none` is a null pointer, `some ()` a valid one.  The result's
first component is the value written through the pointer (`none` when the
write was skipped because the pointer was null); the second component is the
returned pointer to the pool's backing array, i.e. the storage itself. -/
def activeAddresses (p : PoolSt A) (a_end : Option Unit) : Option Int × List Nat :=
  match a_end with
  | some _ => (some p.cursor, p.storage)
  | none => (none, p.storage)

/-- One API call in a sequence of operations on a pool. -/
inductive PoolOp (A : Type) where
  | retrieve
  | release (a : Nat)
  | resize (n : Int)

/-- Apply one operation to a pool state (the result handed back by
`getNext`/`size` is discarded; only the state evolution matters here). -/
def applyOp (p : PoolSt A) : PoolOp A → PoolSt A
  | .retrieve => (getNext p).2
  | .release a => release p a
  | .resize n => (sizeSet p n).2

/-- Run a sequence of operations from a given state. -/
def runOps (p : PoolSt A) (ops : List (PoolOp A)) : PoolSt A :=
  ops.foldl applyOp p

/-- The partition invariant I1 of the spec: `0 <= cursor <= capacity`. -/
def Inv (p : PoolSt A) : Prop :=
  0 ≤ p.cursor ∧ p.cursor ≤ p.size

/-! ### Helper lemmas about the release search loop -/

theorem findPosAux_eq_neg_one_iff (l : List Nat) (a : Nat) (i : Int) (hi : 0 ≤ i) :
    findPosAux l a i = -1 ↔ a ∉ l := by
  induction l generalizing i with
  | nil => simp [findPosAux]
  | cons x xs ih =>
    simp only [findPosAux, List.mem_cons]
    by_cases hx : x == a
    · rw [if_pos hx]
      simp only [beq_iff_eq] at hx
      constructor
      · intro h; omega
      · intro h; exact absurd (Or.inl hx.symm) h
    · rw [if_neg hx]
      simp only [beq_iff_eq] at hx
      rw [ih (i + 1) (by omega)]
      constructor
      · intro h hmem
        rcases hmem with rfl | hmem
        · exact hx rfl
        · exact h hmem
      · intro h hmem; exact h (Or.inr hmem)

theorem findPosAux_spec (l : List Nat) (a : Nat) (i : Int) (h : a ∈ l) :
    ∃ j : Nat, findPosAux l a i = i + j ∧ j < l.length ∧
      l.getD j 0 = a ∧ ∀ k < j, l.getD k 0 ≠ a := by
  induction l generalizing i with
  | nil => cases h
  | cons x xs ih =>
    by_cases hx : x == a
    · refine ⟨0, ?_, by simp, ?_, by omega⟩
      · simp only [findPosAux, if_pos hx]; omega
      · simpa only [List.getD_cons_zero] using beq_iff_eq.mp hx
    · have hxa : x ≠ a := by simpa only [beq_iff_eq] using hx
      have hmem : a ∈ xs := by
        rcases List.mem_cons.mp h with rfl | hmem
        · exact absurd rfl hxa
        · exact hmem
      obtain ⟨j, hj1, hj2, hj3, hj4⟩ := ih (i + 1) hmem
      refine ⟨j + 1, ?_, by simpa using hj2, by simpa using hj3, ?_⟩
      · simp only [findPosAux, if_neg hx]; omega
      · intro k hk
        cases k with
        | zero => simpa only [List.getD_cons_zero] using hxa
        | succ k => simpa only [List.getD_cons_succ] using hj4 k (by omega)

theorem findPosAux_eq_of (l : List Nat) (a : Nat) (i : Int) (j : Nat)
    (hj : j < l.length) (hval : l.getD j 0 = a) (hbefore : ∀ k < j, l.getD k 0 ≠ a) :
    findPosAux l a i = i + j := by
  induction l generalizing i j with
  | nil => simp at hj
  | cons x xs ih =>
    by_cases hx : x == a
    · have hj0 : j = 0 := by
        by_contra hne
        exact hbefore 0 (by omega) (by simpa only [List.getD_cons_zero] using beq_iff_eq.mp hx)
      subst hj0
      simp only [findPosAux, if_pos hx]; omega
    · have hxa : x ≠ a := by simpa only [beq_iff_eq] using hx
      cases j with
      | zero => exact absurd (by simpa only [List.getD_cons_zero] using hval) hxa
      | succ j =>
        have := ih (i + 1) j (by simpa using hj)
          (by simpa only [List.getD_cons_succ] using hval)
          (fun k hk => by simpa only [List.getD_cons_succ] using hbefore (k + 1) (by omega))
        simp only [findPosAux, if_neg hx]; omega

theorem findPos_eq_neg_one_iff (l : List Nat) (a : Nat) :
    findPos l a = -1 ↔ a ∉ l :=
  findPosAux_eq_neg_one_iff l a 0 le_rfl

theorem findPos_spec (l : List Nat) (a : Nat) (h : a ∈ l) :
    ∃ j : Nat, findPos l a = j ∧ j < l.length ∧
      l.getD j 0 = a ∧ ∀ k < j, l.getD k 0 ≠ a := by
  obtain ⟨j, hj1, hj2, hj3, hj4⟩ := findPosAux_spec l a 0 h
  exact ⟨j, by unfold findPos; omega, hj2, hj3, hj4⟩

theorem findPos_eq_of (l : List Nat) (a : Nat) (j : Nat)
    (hj : j < l.length) (hval : l.getD j 0 = a) (hbefore : ∀ k < j, l.getD k 0 ≠ a) :
    findPos l a = j := by
  have := findPosAux_eq_of l a 0 j hj hval hbefore
  unfold findPos
  omega

theorem mem_of_findPos_eq (l : List Nat) (a : Nat) (j : Nat) (h : findPos l a = (j : Int)) :
    a ∈ l := by
  by_contra hmem
  rw [(findPos_eq_neg_one_iff l a).mpr hmem] at h
  omega

/-! ### getD plumbing -/

theorem getD_set_self_of_lt (l : List Nat) (k : Nat) (v d : Nat) (h : k < l.length) :
    (l.set k v).getD k d = v := by
  rw [List.getD_eq_getElem _ _ (by simpa using h)]
  exact List.getElem_set_self (by simpa using h)

theorem getD_set_ne (l : List Nat) (k j : Nat) (v d : Nat) (h : j ≠ k) :
    (l.set k v).getD j d = l.getD j d := by
  by_cases hj : j < l.length
  · rw [List.getD_eq_getElem _ _ (by simpa using hj), List.getD_eq_getElem _ _ hj]
    exact List.getElem_set_ne (Ne.symm h) _
  · rw [List.getD_eq_default _ _ (by simpa using Nat.le_of_not_lt hj),
      List.getD_eq_default _ _ (Nat.le_of_not_lt hj)]

theorem getD_mem (l : List Nat) (j : Nat) (d : Nat) (h : j < l.length) :
    l.getD j d ∈ l := by
  rw [List.getD_eq_getElem _ _ h]
  exact List.getElem_mem h

/-! ### Preservation of the partition invariant -/

theorem inv_getNext (p : PoolSt A) (h : Inv p) : Inv (getNext p).2 := by
  obtain ⟨h0, h1⟩ := h
  by_cases hc : p.cursor < p.size
  · have hcu : (getNext p).2.cursor = p.cursor + 1 := by simp [getNext, hc]
    have hs : (getNext p).2.size = p.size := by simp [getNext, hc]
    exact ⟨by omega, by omega⟩
  · have hp : (getNext p).2 = p := by simp [getNext, hc]
    rw [hp]
    exact ⟨h0, h1⟩

theorem inv_release (p : PoolSt A) (a : Nat) (h : Inv p) : Inv (release p a) := by
  obtain ⟨h0, h1⟩ := h
  by_cases hc : findPos p.storage a > -1 ∧ findPos p.storage a < p.cursor
  · have hcu : (release p a).cursor = p.cursor - 1 := by simp [release, hc]
    have hs : (release p a).size = p.size := by simp [release, hc]
    obtain ⟨hc1, hc2⟩ := hc
    exact ⟨by omega, by omega⟩
  · have hp : release p a = p := by simp [release, hc]
    rw [hp]
    exact ⟨h0, h1⟩

theorem inv_sizeSet (p : PoolSt A) (n : Int) (h : Inv p) : Inv (sizeSet p n).2 := by
  obtain ⟨h0, h1⟩ := h
  by_cases hn : n > 0
  · have hcu : (sizeSet p n).2.cursor = if p.cursor > n then n else p.cursor := by
      simp [sizeSet, hn]
    have hs : (sizeSet p n).2.size = n := by simp [sizeSet, hn]
    constructor
    · rw [hcu]; split <;> omega
    · rw [hcu, hs]; split <;> omega
  · have hp : (sizeSet p n).2 = p := by simp [sizeSet, hn]
    rw [hp]
    exact ⟨h0, h1⟩

theorem inv_applyOp (p : PoolSt A) (op : PoolOp A) (h : Inv p) : Inv (applyOp p op) := by
  cases op with
  | retrieve => exact inv_getNext p h
  | release a => exact inv_release p a h
  | resize n => exact inv_sizeSet p n h

theorem inv_runOps (p : PoolSt A) (ops : List (PoolOp A)) (h : Inv p) :
    Inv (runOps p ops) := by
  induction ops generalizing p with
  | nil => exact h
  | cons op ops ih => exact ih (applyOp p op) (inv_applyOp p op h)

theorem nodup_getD_ne (l : List Nat) (hnd : l.Nodup) (j k : Nat)
    (hj : j < l.length) (hk : k < l.length) (hne : j ≠ k) :
    l.getD j 0 ≠ l.getD k 0 := by
  rw [List.getD_eq_getElem _ _ hj, List.getD_eq_getElem _ _ hk]
  intro h
  exact hne ((List.Nodup.getElem_inj_iff hnd).mp h)

theorem release_found_state (p : PoolSt A) (a : Nat) (i : Nat)
    (hfind : findPos p.storage a = (i : Int)) (hlt : (i : Int) < p.cursor) :
    release p a =
      { p with
          cursor := p.cursor - 1
          storage := (p.storage.set (p.cursor - 1).toNat a).set i
            (p.storage.getD (p.cursor - 1).toNat 0) } := by
  have hgt : (-1 : Int) < (i : Int) := by omega
  simp [release, hfind, hgt, hlt]

theorem release_not_found_state (p : PoolSt A) (a : Nat)
    (hc : ¬ (findPos p.storage a > -1 ∧ findPos p.storage a < p.cursor)) :
    release p a = p := by
  simp [release, hc]

theorem inv_poolCtorSize (d : A) (n : Int) (p0 : PoolSt A)
    (h : poolCtorSize d n = CtorResult.ok p0) : Inv p0 := by
  unfold poolCtorSize at h
  by_cases hn : n > 0
  · rw [if_pos hn] at h
    injection h with h
    subst h
    exact ⟨le_rfl, le_of_lt hn⟩
  · rw [if_neg hn] at h
    cases h

theorem inv_poolCtorClone (t : A) (n : Int) (p0 : PoolSt A)
    (h : poolCtorClone t n = CtorResult.ok p0) : Inv p0 := by
  unfold poolCtorClone at h
  by_cases hn : n > 0
  · rw [if_pos hn] at h
    injection h with h
    subst h
    exact ⟨le_rfl, le_of_lt hn⟩
  · rw [if_neg hn] at h
    cases h

theorem runOps_replicate_retrieve (k : Nat) (p : PoolSt A)
    (h0 : 0 ≤ p.cursor) (h1 : p.cursor ≤ p.size) :
    runOps p (List.replicate k PoolOp.retrieve) =
      { p with cursor := min (p.cursor + k) p.size } := by
  induction k generalizing p with
  | zero =>
    have hmin : min (p.cursor + ((0 : Nat) : Int)) p.size = p.cursor := by
      simp only [Nat.cast_zero, add_zero]
      omega
    rw [hmin]
    rfl
  | succ k ih =>
    rw [List.replicate_succ]
    have hstep : runOps p (PoolOp.retrieve :: List.replicate k PoolOp.retrieve) =
        runOps (applyOp p PoolOp.retrieve) (List.replicate k PoolOp.retrieve) := rfl
    rw [hstep]
    by_cases hc : p.cursor < p.size
    · have happ : applyOp p PoolOp.retrieve = { p with cursor := p.cursor + 1 } := by
        simp [applyOp, getNext, hc]
      rw [happ, ih { p with cursor := p.cursor + 1 } (by simp; omega) (by simp; omega)]
      have hmin : min (p.cursor + 1 + (k : Int)) p.size =
          min (p.cursor + ((k + 1 : Nat) : Int)) p.size := by
        push_cast
        omega
      rw [hmin]
    · have happ : applyOp p PoolOp.retrieve = p := by
        simp [applyOp, getNext, hc]
      rw [happ, ih p h0 h1]
      have hmin : min (p.cursor + (k : Int)) p.size =
          min (p.cursor + ((k + 1 : Nat) : Int)) p.size := by
        push_cast
        omega
      rw [hmin]

/-! ### Sample pools used by the witness theorems -/

/-- A freshly constructed pool of two default integer objects, the value
produced by the constructor call with size 2. -/
def pool2 : PoolSt Int :=
  { size := 2
    cursor := 0
    storage := List.range 2
    heap := fun _ => 0
    nextAlloc := 2 }

/-- A pool of three integer objects, all three currently active. -/
def pool3full : PoolSt Int :=
  { size := 3
    cursor := 3
    storage := [0, 1, 2]
    heap := fun _ => 0
    nextAlloc := 3 }

/-- A pool of five integer objects with four active, used for the shrink
examples. -/
def pool5 : PoolSt Int :=
  { size := 5
    cursor := 4
    storage := [0, 1, 2, 3, 4]
    heap := fun a => (a : Int) + 10
    nextAlloc := 5 }

/-! ### The claims -/

/-- C1: for every sequence of retrieve, release and resize operations on a
constructed pool (any of the three constructors), the partition invariant
`0 <= cursor <= capacity` holds after every operation: retrieve increments
the cursor only when it is below capacity, release decrements it only when
an active slot was found, and resize clamps it to the new capacity. -/
theorem partition_invariant (d t : A) (n m : Int) (p0 : PoolSt A)
    (hctor : p0 = poolCtorDefault d ∨ poolCtorSize d n = CtorResult.ok p0 ∨
      poolCtorClone t m = CtorResult.ok p0)
    (ops : List (PoolOp A)) :
    0 ≤ activeCount (runOps p0 ops) ∧
      activeCount (runOps p0 ops) ≤ sizeGet (runOps p0 ops) := by
  have hinv : Inv p0 := by
    rcases hctor with rfl | h | h
    · exact ⟨le_rfl, by norm_num [poolCtorDefault]⟩
    · exact inv_poolCtorSize d n p0 h
    · exact inv_poolCtorClone t m p0 h
  exact inv_runOps p0 ops hinv

/-- Witness for C1 at a concrete constructed pool and operation sequence. -/
theorem partition_invariant_witness :
    (poolCtorDefault (0 : Int) = poolCtorDefault 0 ∨
      poolCtorSize (0 : Int) 1 = CtorResult.ok (poolCtorDefault 0) ∨
      poolCtorClone (0 : Int) 1 = CtorResult.ok (poolCtorDefault 0)) ∧
    (0 ≤ activeCount (runOps (poolCtorDefault (0 : Int))
        [PoolOp.retrieve, PoolOp.release 0, PoolOp.resize 5]) ∧
      activeCount (runOps (poolCtorDefault (0 : Int))
        [PoolOp.retrieve, PoolOp.release 0, PoolOp.resize 5]) ≤
      sizeGet (runOps (poolCtorDefault (0 : Int))
        [PoolOp.retrieve, PoolOp.release 0, PoolOp.resize 5])) :=
  ⟨Or.inl rfl,
    partition_invariant 0 0 1 1 (poolCtorDefault 0) (Or.inl rfl)
      [PoolOp.retrieve, PoolOp.release 0, PoolOp.resize 5]⟩

/-- C2: when release finds the handle at an index strictly below the
cursor, it swaps the pointer at index `cursor - 1` with the pointer at the
found index — the released object moves to position `cursor - 1` and the
object formerly there moves to the found index — then decrements the cursor
by one; no other slot and no other component of the state changes. -/
theorem release_swap (p : PoolSt A) (a : Nat) (i : Nat)
    (hfind : findPos p.storage a = (i : Int))
    (hlt : (i : Int) < p.cursor)
    (hlen : p.storage.length = p.size.toNat)
    (hcur : p.cursor ≤ p.size) :
    (release p a).cursor = p.cursor - 1 ∧
    (release p a).size = p.size ∧
    (release p a).heap = p.heap ∧
    (release p a).nextAlloc = p.nextAlloc ∧
    (release p a).storage.length = p.storage.length ∧
    (release p a).storage.getD (p.cursor - 1).toNat 0 = a ∧
    (release p a).storage.getD i 0 = p.storage.getD (p.cursor - 1).toNat 0 ∧
    (∀ j : Nat, j ≠ i → j ≠ (p.cursor - 1).toNat →
      (release p a).storage.getD j 0 = p.storage.getD j 0) := by
  have hcond : findPos p.storage a > -1 ∧ findPos p.storage a < p.cursor := by
    constructor <;> omega
  have hmem : a ∈ p.storage := mem_of_findPos_eq p.storage a i hfind
  obtain ⟨j, hj1, hj2, hj3, hj4⟩ := findPos_spec p.storage a hmem
  have hij : i = j := by omega
  subst hij
  have hilen : i < p.storage.length := hj2
  have hlastlen : (p.cursor - 1).toNat < p.storage.length := by omega
  have hgt : (-1 : Int) < (i : Int) := by omega
  have hst : (release p a).storage =
      (p.storage.set (p.cursor - 1).toNat a).set i
        (p.storage.getD (p.cursor - 1).toNat 0) := by
    simp [release, hfind, hgt, hlt]
  have hcu : (release p a).cursor = p.cursor - 1 := by
    simp [release, hcond]
  have hsz : (release p a).size = p.size := by
    simp [release, hcond]
  have hhe : (release p a).heap = p.heap := by
    simp [release, hcond]
  have hal : (release p a).nextAlloc = p.nextAlloc := by
    simp [release, hcond]
  refine ⟨hcu, hsz, hhe, hal, by rw [hst]; simp, ?_, ?_, ?_⟩
  · rw [hst]
    by_cases hi : i = (p.cursor - 1).toNat
    · subst hi
      rw [getD_set_self_of_lt _ _ _ _ (by simpa using hilen)]
      exact hj3
    · rw [getD_set_ne _ _ _ _ _ (Ne.symm hi),
        getD_set_self_of_lt _ _ _ _ hlastlen]
  · rw [hst, getD_set_self_of_lt _ _ _ _ (by simpa using hilen)]
  · intro j' hji hjlast
    rw [hst, getD_set_ne _ _ _ _ _ hji, getD_set_ne _ _ _ _ _ hjlast]

/-- Witness for C2: in a fully active pool of three objects, releasing the
handle at index 1 swaps it with the pointer at index 2 and decrements the
cursor. -/
theorem release_swap_witness :
    (findPos pool3full.storage 1 = ((1 : Nat) : Int) ∧
      ((1 : Nat) : Int) < pool3full.cursor ∧
      pool3full.storage.length = pool3full.size.toNat ∧
      pool3full.cursor ≤ pool3full.size) ∧
    ((release pool3full 1).cursor = pool3full.cursor - 1 ∧
      (release pool3full 1).size = pool3full.size ∧
      (release pool3full 1).heap = pool3full.heap ∧
      (release pool3full 1).nextAlloc = pool3full.nextAlloc ∧
      (release pool3full 1).storage.length = pool3full.storage.length ∧
      (release pool3full 1).storage.getD (pool3full.cursor - 1).toNat 0 = 1 ∧
      (release pool3full 1).storage.getD 1 0 =
        pool3full.storage.getD (pool3full.cursor - 1).toNat 0 ∧
      (∀ j : Nat, j ≠ 1 → j ≠ (pool3full.cursor - 1).toNat →
        (release pool3full 1).storage.getD j 0 = pool3full.storage.getD j 0)) :=
  ⟨⟨by decide, by decide, by decide, by decide⟩,
    release_swap pool3full 1 1 (by decide) (by decide) (by decide) (by decide)⟩

/-- C3: retrieve returns the object at `storage[cursor]` and increments the
cursor by one exactly when `cursor < capacity`; when `cursor = capacity` it
fails (returns the null pointer) and mutates nothing; and after `capacity`
successful retrieves from a freshly constructed pool with no releases, the
next retrieve fails while `activeCount()` equals the capacity. -/
theorem getNext_behaviour (p : PoolSt A) (d : A) (n : Int) (p0 : PoolSt A)
    (h0 : poolCtorSize d n = CtorResult.ok p0) :
    ((p.cursor < p.size →
        getNext p = (some (p.storage.getD p.cursor.toNat 0),
          { p with cursor := p.cursor + 1 })) ∧
     (p.cursor = p.size → getNext p = (none, p))) ∧
    ((∀ k : Nat, (k : Int) < n →
        (getNext (runOps p0 (List.replicate k PoolOp.retrieve))).1 ≠ none) ∧
     (getNext (runOps p0 (List.replicate n.toNat PoolOp.retrieve))).1 = none ∧
     (getNext (runOps p0 (List.replicate n.toNat PoolOp.retrieve))).2 =
       runOps p0 (List.replicate n.toNat PoolOp.retrieve) ∧
     activeCount (runOps p0 (List.replicate n.toNat PoolOp.retrieve)) = n) := by
  have hn : n > 0 := by
    unfold poolCtorSize at h0
    by_cases hn : n > 0
    · exact hn
    · rw [if_neg hn] at h0
      cases h0
  have hfields : p0.cursor = 0 ∧ p0.size = n := by
    unfold poolCtorSize at h0
    rw [if_pos hn] at h0
    injection h0 with h
    rw [← h]
    exact ⟨rfl, rfl⟩
  obtain ⟨hcur0, hsz0⟩ := hfields
  have hrun : ∀ k : Nat, runOps p0 (List.replicate k PoolOp.retrieve) =
      { p0 with cursor := min (k : Int) n } := by
    intro k
    rw [runOps_replicate_retrieve k p0 (by omega) (by omega)]
    congr 1
    omega
  have hcurk : ∀ k : Nat,
      (runOps p0 (List.replicate k PoolOp.retrieve)).cursor = min (k : Int) n := by
    intro k
    rw [hrun k]
  have hszk : ∀ k : Nat,
      (runOps p0 (List.replicate k PoolOp.retrieve)).size = n := by
    intro k
    rw [hrun k]
    exact hsz0
  refine ⟨⟨?_, ?_⟩, ?_, ?_, ?_, ?_⟩
  · intro hc
    simp [getNext, hc]
  · intro hc
    have hnc : ¬ (p.cursor < p.size) := by omega
    simp [getNext, hnc]
  · intro k hk
    have h1 : (runOps p0 (List.replicate k PoolOp.retrieve)).cursor <
        (runOps p0 (List.replicate k PoolOp.retrieve)).size := by
      rw [hcurk k, hszk k]
      omega
    simp [getNext, h1]
  · have h1 : ¬ ((runOps p0 (List.replicate n.toNat PoolOp.retrieve)).cursor <
        (runOps p0 (List.replicate n.toNat PoolOp.retrieve)).size) := by
      rw [hcurk _, hszk _]
      omega
    simp [getNext, h1]
  · have h1 : ¬ ((runOps p0 (List.replicate n.toNat PoolOp.retrieve)).cursor <
        (runOps p0 (List.replicate n.toNat PoolOp.retrieve)).size) := by
      rw [hcurk _, hszk _]
      omega
    simp [getNext, h1]
  · unfold activeCount
    rw [hcurk _]
    omega

/-- Witness for C3 at the freshly constructed pool of capacity 2 and at a
fully active pool of capacity 3. -/
theorem getNext_behaviour_witness :
    poolCtorSize (0 : Int) 2 = CtorResult.ok pool2 ∧
    (((pool3full.cursor < pool3full.size →
        getNext pool3full = (some (pool3full.storage.getD pool3full.cursor.toNat 0),
          { pool3full with cursor := pool3full.cursor + 1 })) ∧
      (pool3full.cursor = pool3full.size → getNext pool3full = (none, pool3full))) ∧
     ((∀ k : Nat, (k : Int) < 2 →
         (getNext (runOps pool2 (List.replicate k PoolOp.retrieve))).1 ≠ none) ∧
      (getNext (runOps pool2 (List.replicate (2 : Int).toNat PoolOp.retrieve))).1 = none ∧
      (getNext (runOps pool2 (List.replicate (2 : Int).toNat PoolOp.retrieve))).2 =
        runOps pool2 (List.replicate (2 : Int).toNat PoolOp.retrieve) ∧
      activeCount (runOps pool2 (List.replicate (2 : Int).toNat PoolOp.retrieve)) = 2)) :=
  ⟨rfl, getNext_behaviour pool3full 0 2 pool2 rfl⟩

/-- C4: release fails (silently, the throw being commented out) and leaves
the whole pool state unchanged whenever the handle is not found in storage
or is found at an index at or above the cursor; in particular, after a
successful release of a handle, releasing the same handle again is a no-op,
and any release when the cursor is 0 is a no-op. -/
theorem release_invalid (p : PoolSt A) (a : Nat)
    (hlen : p.storage.length = p.size.toNat)
    (hcur : p.cursor ≤ p.size)
    (hnodup : p.storage.Nodup) :
    (a ∉ p.storage → release p a = p) ∧
    (∀ i : Nat, findPos p.storage a = (i : Int) → p.cursor ≤ (i : Int) →
      release p a = p) ∧
    (p.cursor = 0 → release p a = p) ∧
    (∀ i : Nat, findPos p.storage a = (i : Int) → (i : Int) < p.cursor →
      release (release p a) a = release p a) := by
  refine ⟨?_, ?_, ?_, ?_⟩
  · intro hmem
    have h1 : findPos p.storage a = -1 := (findPos_eq_neg_one_iff _ _).mpr hmem
    exact release_not_found_state p a (by omega)
  · intro i hf hge
    refine release_not_found_state p a ?_
    rw [hf]
    omega
  · intro h0
    refine release_not_found_state p a ?_
    rw [h0]
    omega
  · intro i hf hlt2
    have hrel := release_found_state p a i hf hlt2
    obtain ⟨j, hj1, hj2, hj3, hj4⟩ :=
      findPos_spec p.storage a (mem_of_findPos_eq p.storage a i hf)
    have hij : i = j := by omega
    subst hij
    have hilen : i < p.storage.length := hj2
    have hcur1 : 1 ≤ p.cursor := by omega
    have hlastlen : (p.cursor - 1).toNat < p.storage.length := by omega
    have hstq : (release p a).storage =
        (p.storage.set (p.cursor - 1).toNat a).set i
          (p.storage.getD (p.cursor - 1).toNat 0) := by
      rw [hrel]
    have hcq : (release p a).cursor = p.cursor - 1 := by
      rw [hrel]
    have hqa : ((p.storage.set (p.cursor - 1).toNat a).set i
        (p.storage.getD (p.cursor - 1).toNat 0)).getD (p.cursor - 1).toNat 0 = a := by
      by_cases hi : i = (p.cursor - 1).toNat
      · rw [← hi] at hlastlen ⊢
        rw [getD_set_self_of_lt _ _ _ _ (by simpa using hilen), hi]
        rw [← hi, hj3]
      · rw [getD_set_ne _ _ _ _ _ (Ne.symm hi),
          getD_set_self_of_lt _ _ _ _ hlastlen]
    have hprev : ∀ k < (p.cursor - 1).toNat,
        ((p.storage.set (p.cursor - 1).toNat a).set i
          (p.storage.getD (p.cursor - 1).toNat 0)).getD k 0 ≠ a := by
      intro k hk
      by_cases hki : k = i
      · subst hki
        rw [getD_set_self_of_lt _ _ _ _ (by simpa using hilen)]
        intro hcontra
        exact nodup_getD_ne p.storage hnodup (p.cursor - 1).toNat k
          hlastlen hilen (by omega) (hcontra.trans hj3.symm)
      · rw [getD_set_ne _ _ _ _ _ hki, getD_set_ne _ _ _ _ _ (by omega)]
        intro hcontra
        exact nodup_getD_ne p.storage hnodup k i (by omega) hilen hki
          (hcontra.trans hj3.symm)
    have hfind2 : findPos ((p.storage.set (p.cursor - 1).toNat a).set i
        (p.storage.getD (p.cursor - 1).toNat 0)) a = ((p.cursor - 1).toNat : Int) :=
      findPos_eq_of _ a (p.cursor - 1).toNat (by simpa using hlastlen) hqa hprev
    refine release_not_found_state (release p a) a ?_
    rw [hstq, hcq, hfind2]
    omega

/-- Witness for C4 at the fully active pool of three objects and handle 1. -/
theorem release_invalid_witness :
    (pool3full.storage.length = pool3full.size.toNat ∧
      pool3full.cursor ≤ pool3full.size ∧
      pool3full.storage.Nodup) ∧
    ((1 ∉ pool3full.storage → release pool3full 1 = pool3full) ∧
      (∀ i : Nat, findPos pool3full.storage 1 = (i : Int) →
        pool3full.cursor ≤ (i : Int) → release pool3full 1 = pool3full) ∧
      (pool3full.cursor = 0 → release pool3full 1 = pool3full) ∧
      (∀ i : Nat, findPos pool3full.storage 1 = (i : Int) →
        (i : Int) < pool3full.cursor →
        release (release pool3full 1) 1 = release pool3full 1)) :=
  ⟨⟨by decide, by decide, by decide⟩,
    release_invalid pool3full 1 (by decide) (by decide) (by decide)⟩

/-- C5 (the code at the failing inputs): for non-positive sizes both
fallible constructors take the else branch, whose `throw` statement is
commented out and which instead executes `delete this`; no `InvalidArgument`
failure is surfaced to the caller and the half-initialised object destroys
itself inside its own constructor. -/
theorem ctor_nonpositive_deletes_self :
    poolCtorSize (0 : Int) 0 = CtorResult.deletedThis ∧
    poolCtorSize (0 : Int) (-3) = CtorResult.deletedThis ∧
    poolCtorClone (37 : Int) 0 = CtorResult.deletedThis :=
  ⟨rfl, rfl, rfl⟩

/-- C6: growing the pool keeps every existing pointer at its index (so the
cursor and all active objects are unchanged by identity) and fills indices
`[capacity, newCapacity)` with freshly allocated objects, pairwise distinct
and absent from the old storage, each carrying the value that the object at
old index `capacity - 1` has at the time of the resize. -/
theorem resize_growth (p : PoolSt A) (n : Int)
    (hgt : p.size < n)
    (hlen : p.storage.length = p.size.toNat)
    (hcur : p.cursor ≤ p.size)
    (hpos : 0 < p.size)
    (hfresh : ∀ x ∈ p.storage, x < p.nextAlloc) :
    (sizeSet p n).1 = true ∧
    (sizeSet p n).2.size = n ∧
    (sizeSet p n).2.cursor = p.cursor ∧
    (sizeSet p n).2.storage.length = n.toNat ∧
    (∀ i : Nat, i < p.size.toNat →
      (sizeSet p n).2.storage.getD i 0 = p.storage.getD i 0 ∧
      (sizeSet p n).2.heap ((sizeSet p n).2.storage.getD i 0) =
        p.heap (p.storage.getD i 0)) ∧
    (∀ i : Nat, p.size.toNat ≤ i → i < n.toNat →
      (sizeSet p n).2.heap ((sizeSet p n).2.storage.getD i 0) =
        p.heap (p.storage.getD (p.size - 1).toNat 0) ∧
      (sizeSet p n).2.storage.getD i 0 ∉ p.storage) ∧
    (∀ i j : Nat, p.size.toNat ≤ i → i < j → j < n.toNat →
      (sizeSet p n).2.storage.getD i 0 ≠ (sizeSet p n).2.storage.getD j 0) := by
  have hn : n > 0 := by omega
  have hng : ¬ (p.cursor > n) := by omega
  have hmin : min n.toNat p.size.toNat = p.size.toNat := by omega
  have htake : p.storage.take (min n.toNat p.size.toNat) = p.storage := by
    rw [hmin, ← hlen]
    exact List.take_length p.storage
  have h1 : (sizeSet p n).1 = true := by simp [sizeSet, hn]
  have hsz : (sizeSet p n).2.size = n := by simp [sizeSet, hn]
  have hcu : (sizeSet p n).2.cursor = p.cursor := by simp [sizeSet, hn, hng]
  have hst : (sizeSet p n).2.storage =
      p.storage ++ (List.range (n - p.size).toNat).map (fun j => p.nextAlloc + j) := by
    simp only [sizeSet, if_pos hn]
    rw [htake]
  have hhp : (sizeSet p n).2.heap = fun a =>
      if p.nextAlloc ≤ a ∧ a < p.nextAlloc + (n - p.size).toNat
      then p.heap (p.storage.getD (p.size - 1).toNat 0) else p.heap a := by
    simp [sizeSet, hn]
  have hmap : ∀ k : Nat, k < (n - p.size).toNat →
      ((List.range (n - p.size).toNat).map (fun j => p.nextAlloc + j)).getD k 0 =
        p.nextAlloc + k := by
    intro k hk
    rw [List.getD_eq_getElem _ _ (by simpa using hk)]
    simp
  have hnew : ∀ i : Nat, p.size.toNat ≤ i → i < n.toNat →
      (sizeSet p n).2.storage.getD i 0 = p.nextAlloc + (i - p.size.toNat) := by
    intro i hi1 hi2
    rw [hst, List.getD_append_right _ _ _ _ (by omega), hlen,
      hmap (i - p.size.toNat) (by omega)]
  refine ⟨h1, hsz, hcu, ?_, ?_, ?_, ?_⟩
  · rw [hst]
    simp only [List.length_append, List.length_map, List.length_range, hlen]
    omega
  · intro i hi
    have hget : (sizeSet p n).2.storage.getD i 0 = p.storage.getD i 0 := by
      rw [hst, List.getD_append _ _ _ _ (by omega)]
    refine ⟨hget, ?_⟩
    rw [hget, hhp]
    have hm : p.storage.getD i 0 < p.nextAlloc :=
      hfresh _ (getD_mem p.storage i 0 (by omega))
    simp only
    rw [if_neg (by omega)]
  · intro i hi1 hi2
    rw [hnew i hi1 hi2, hhp]
    constructor
    · simp only
      rw [if_pos (by omega)]
    · intro hmem
      have := hfresh _ hmem
      omega
  · intro i j hi hij hj
    rw [hnew i hi (by omega), hnew j (by omega) hj]
    omega

/-- Witness for C6: growing the 5-slot pool with 4 actives to capacity 8. -/
theorem resize_growth_witness :
    (pool5.size < 8 ∧
      pool5.storage.length = pool5.size.toNat ∧
      pool5.cursor ≤ pool5.size ∧
      0 < pool5.size ∧
      (∀ x ∈ pool5.storage, x < pool5.nextAlloc)) ∧
    ((sizeSet pool5 8).1 = true ∧
      (sizeSet pool5 8).2.size = 8 ∧
      (sizeSet pool5 8).2.cursor = pool5.cursor ∧
      (sizeSet pool5 8).2.storage.length = (8 : Int).toNat ∧
      (∀ i : Nat, i < pool5.size.toNat →
        (sizeSet pool5 8).2.storage.getD i 0 = pool5.storage.getD i 0 ∧
        (sizeSet pool5 8).2.heap ((sizeSet pool5 8).2.storage.getD i 0) =
          pool5.heap (pool5.storage.getD i 0)) ∧
      (∀ i : Nat, pool5.size.toNat ≤ i → i < (8 : Int).toNat →
        (sizeSet pool5 8).2.heap ((sizeSet pool5 8).2.storage.getD i 0) =
          pool5.heap (pool5.storage.getD (pool5.size - 1).toNat 0) ∧
        (sizeSet pool5 8).2.storage.getD i 0 ∉ pool5.storage) ∧
      (∀ i j : Nat, pool5.size.toNat ≤ i → i < j → j < (8 : Int).toNat →
        (sizeSet pool5 8).2.storage.getD i 0 ≠ (sizeSet pool5 8).2.storage.getD j 0)) :=
  ⟨⟨by decide, by decide, by decide, by decide, by decide⟩,
    resize_growth pool5 8 (by decide) (by decide) (by decide) (by decide) (by decide)⟩

/-- C7: shrinking the pool to a positive smaller capacity keeps the objects
at indices `[0, newCapacity)` in place, drops the objects at indices
`[newCapacity, capacity)`, sets the capacity to the new value, and clamps
the cursor to the new capacity exactly when it exceeded it; in particular a
pool of capacity 5 with 4 active objects resized to 2 ends with
`activeCount() = 2` and capacity 2. -/
theorem resize_shrink (p : PoolSt A) (n : Int)
    (h0 : 0 < n) (hlt : n < p.size) :
    (sizeSet p n).1 = true ∧
    (sizeSet p n).2.size = n ∧
    (sizeSet p n).2.storage = p.storage.take n.toNat ∧
    (sizeSet p n).2.cursor = (if p.cursor > n then n else p.cursor) ∧
    (p.size = 5 → p.cursor = 4 → n = 2 →
      activeCount (sizeSet p n).2 = 2 ∧ sizeGet (sizeSet p n).2 = 2) := by
  have hn : n > 0 := h0
  have hmin : min n.toNat p.size.toNat = n.toNat := by omega
  have hcc : (n - p.size).toNat = 0 := by omega
  have h1 : (sizeSet p n).1 = true := by simp [sizeSet, hn]
  have hsz : (sizeSet p n).2.size = n := by simp [sizeSet, hn]
  have hst : (sizeSet p n).2.storage = p.storage.take n.toNat := by
    simp only [sizeSet, if_pos hn]
    rw [hmin, hcc]
    simp
  have hcu : (sizeSet p n).2.cursor = if p.cursor > n then n else p.cursor := by
    simp [sizeSet, hn]
  refine ⟨h1, hsz, hst, hcu, ?_⟩
  intro h5 h4 h2
  constructor
  · unfold activeCount
    rw [hcu, if_pos (by omega)]
    omega
  · unfold sizeGet
    rw [hsz]
    omega

/-- Witness for C7: shrinking the 5-slot pool with 4 actives to capacity 2. -/
theorem resize_shrink_witness :
    ((0 : Int) < 2 ∧ (2 : Int) < pool5.size) ∧
    ((sizeSet pool5 2).1 = true ∧
      (sizeSet pool5 2).2.size = 2 ∧
      (sizeSet pool5 2).2.storage = pool5.storage.take (2 : Int).toNat ∧
      (sizeSet pool5 2).2.cursor = (if pool5.cursor > 2 then 2 else pool5.cursor) ∧
      (pool5.size = 5 → pool5.cursor = 4 → (2 : Int) = 2 →
        activeCount (sizeSet pool5 2).2 = 2 ∧ sizeGet (sizeSet pool5 2).2 = 2)) :=
  ⟨⟨by decide, by decide⟩, resize_shrink pool5 2 (by decide) (by decide)⟩

/-- C10: resizing a pool to its current capacity succeeds (returns `true`)
and is an identity on the observable state: capacity, cursor and the stored
pointer sequence at every index are all unchanged. -/
theorem resize_same (p : PoolSt A)
    (hpos : 0 < p.size)
    (hlen : p.storage.length = p.size.toNat)
    (hcur : p.cursor ≤ p.size) :
    sizeSet p p.size = (true, p) := by
  have hn : p.size > 0 := hpos
  have hng : ¬ (p.cursor > p.size) := by omega
  have hcc : (p.size - p.size).toNat = 0 := by omega
  have hmin : min p.size.toNat p.size.toNat = p.size.toNat := by omega
  have h1 : (sizeSet p p.size).1 = true := by simp [sizeSet, hn]
  have h2 : (sizeSet p p.size).2 = p := by
    refine PoolSt.ext ?_ ?_ ?_ ?_ ?_
    · simp [sizeSet, hn]
    · simp [sizeSet, hn, hng]
    · simp only [sizeSet, if_pos hn]
      rw [hmin, hcc, ← hlen]
      simp
    · funext a
      simp only [sizeSet, if_pos hn]
      rw [hcc]
      rw [if_neg (by omega)]
    · simp [sizeSet, hn, hcc]
  calc sizeSet p p.size = ((sizeSet p p.size).1, (sizeSet p p.size).2) := rfl
    _ = (true, p) := by rw [h1, h2]

/-- Witness for C10: resizing the 5-slot pool to its own capacity 5. -/
theorem resize_same_witness :
    (0 < pool5.size ∧
      pool5.storage.length = pool5.size.toNat ∧
      pool5.cursor ≤ pool5.size) ∧
    sizeSet pool5 pool5.size = (true, pool5) :=
  ⟨⟨by decide, by decide, by decide⟩,
    resize_same pool5 (by decide) (by decide) (by decide)⟩

/-- C8: resizing to a non-positive capacity returns `false` and mutates
nothing: the whole state (capacity, cursor, storage, heap) is exactly as
before the call. -/
theorem resize_nonpositive_noop (p : PoolSt A) (n : Int) (h : n ≤ 0) :
    sizeSet p n = (false, p) := by
  unfold sizeSet
  rw [if_neg (by omega)]

/-- Witness for C8 at a concrete pool and new capacity 0. -/
theorem resize_nonpositive_noop_witness :
    (0 : Int) ≤ 0 ∧ sizeSet pool5 0 = (false, pool5) :=
  ⟨le_rfl, resize_nonpositive_noop pool5 0 le_rfl⟩

/-- C9: activeAddresses tolerates a null count out-pointer: with a null
pointer the count write is skipped and the backing storage pointer is still
returned; with a valid pointer the value written through it is the cursor. -/
theorem activeAddresses_null_tolerant (p : PoolSt A) :
    activeAddresses p none = (none, p.storage) ∧
    activeAddresses p (some ()) = (some p.cursor, p.storage) :=
  ⟨rfl, rfl⟩

end ObjectPooler
